import Mathlib

/-!
Shallow embedding of the core of the NineChronicles.EthBridge daemon:
the `NCGKMSTransfer.transfer` build–sign–stage path (ncg-kms-transfer.ts),
the `WrappedNCGMinter.mint` gas handling (src/bridge/src/wrapped-ncg-minter.ts),
and the `TriggerableMonitor.loop` confirmed-block driver
(monitors/triggerable-monitor.ts).  Machine numbers are modelled as `Nat`/`Int`,
decimal.js values as `ℚ`, promise rejections as `Except`.
-/

namespace EthBridge

/-! ## Decimal amounts (`ncg-kms-transfer.ts`, line 74)

`new Decimal(amount)` parses a decimal string; we model the parsed string by
its integer part `units` and its list of fraction digits.  `mul(100).floor()`
is exact rational arithmetic followed by the floor. -/

/-- Value of a list of fraction digits read after the decimal point:
`fracVal [d0, d1, ...] = d0/10 + d1/100 + ...`. -/
def fracVal : List ℕ → ℚ
  | [] => 0
  | d :: ds => (d + fracVal ds) / 10

/-- Rational value of the decimal string with integer part `units` and
fraction digits `frac`. -/
def decimalValue (units : ℕ) (frac : List ℕ) : ℚ :=
  units + fracVal frac

/-- Embedding of `new Decimal(amount).mul(100).floor().toNumber()`
(ncg-kms-transfer.ts line 74). -/
def ncgAmount (units : ℕ) (frac : List ℕ) : ℤ :=
  ⌊decimalValue units frac * 100⌋

/-- The fields of the `transfer_asset3` plain value built by
`NCGKMSTransfer.transfer` (ncg-kms-transfer.ts lines 78–95) that the claims
inspect. -/
structure PlainValue where
  typeId : String
  decimalPlaces : ℕ
  ticker : String
  amountInt : ℤ
  deriving DecidableEq, Repr

/-- Embedding of the plain-value literal of `NCGKMSTransfer.transfer`
(ncg-kms-transfer.ts lines 78–95), with the amount string given by its
integer part and fraction digits. -/
def buildPlainValue (units : ℕ) (frac : List ℕ) : PlainValue :=
  { typeId := "transfer_asset3"
    decimalPlaces := 2
    ticker := "NCG"
    amountInt := ncgAmount units frac }

/-! ## Staging fan-out (`ncg-kms-transfer.ts`, lines 96–130) -/

/-- The remote calls `NCGKMSTransfer.transfer` performs, each tagged with the
index of the GraphQL client it targets. -/
inductive RpcCall where
  | createUnsignedTx (clientIdx : ℕ)
  | sign
  | stageTx (clientIdx : ℕ)
  deriving DecidableEq, Repr

/-- Per-client staging outcome as the code sees it: the catch handler maps a
rejected `stageTx` promise to `false` (ncg-kms-transfer.ts lines 114–117). -/
def stageBool : Except Unit Bool → Bool
  | .ok b => b
  | .error _ => false

/-- Embedding of `stageResults.reduce((a, b) => a || b)`
(ncg-kms-transfer.ts line 120).  JavaScript `reduce` without an initial value
throws on an empty array, hence the `Option`. -/
def successAtLeastOne : List Bool → Option Bool
  | [] => none
  | b :: bs => some (bs.foldl (fun a c => a || c) b)

/-- Failure modes of the staging phase of `transfer`. -/
inductive TransferError where
  | stageFailed
  | emptyClients
  deriving DecidableEq, Repr

/-- Observable behaviour of one `NCGKMSTransfer.transfer` call: the remote
calls it makes and its result. -/
structure TransferTrace where
  calls : List RpcCall
  result : Except TransferError String
  deriving Repr

/-- Embedding of the build–sign–stage body of `NCGKMSTransfer.transfer`
(ncg-kms-transfer.ts lines 96–130).  `stageResponses` gives, per configured
client, how that client's `stageTx` promise settles; `txId` stands for the
hex SHA-256 of the signed transaction.  The unsigned transaction is requested
from `this.headlessGraphQLClient`, the getter returning
`this._headlessGraphQLCLients[0]` (lines 62–64); the signed transaction is
staged on every client (lines 104–119). -/
def transferModel (stageResponses : List (Except Unit Bool)) (txId : String) :
    TransferTrace :=
  { calls := RpcCall.createUnsignedTx 0 :: RpcCall.sign ::
      (List.range stageResponses.length).map RpcCall.stageTx
    result :=
      match successAtLeastOne (stageResponses.map stageBool) with
      | none => .error .emptyClients
      | some false => .error .stageFailed
      | some true => .ok txId }

/-! ## Signer mutex (`ncg-kms-transfer.ts`, lines 58, 75, `async-mutex`)

`transfer` runs its whole body inside `this._mutex.runExclusive`; a single
`NCGKMSTransfer` instance (and hence a single mutex) is shared by both
observers (index.ts lines 259–265, 283, 290).  We model executions as traces
of atomic actions, with the mutual-exclusion discipline of the mutex and the
fact, read off the code, that `createUnsignedTx` is called only inside the
exclusive section. -/

/-- Atomic actions of a `transfer` call `k` relevant to serialization. -/
inductive SigAction where
  | acquire
  | unsignedStart
  | unsignedEnd
  | release
  deriving DecidableEq, Repr

/-- Mutex state: the holder, if any, and the calls with an in-flight
`createUnsignedTx` request. -/
structure SigState where
  holder : Option ℕ
  inFlight : List ℕ
  deriving DecidableEq, Repr

/-- One step of the serialized-signer semantics: `acquire` needs a free
mutex; a `createUnsignedTx` request starts and ends only while its call
holds the mutex (it is issued and awaited inside the `runExclusive` body,
ncg-kms-transfer.ts lines 75 and 96–100); `release` needs the holder's body
to have finished, in particular its request is no longer in flight because
the body awaits it.  Invalid steps yield `none`. -/
def sigStep (st : SigState) (k : ℕ) : SigAction → Option SigState
  | .acquire => if st.holder = none then some { st with holder := some k } else none
  | .release =>
      if st.holder = some k ∧ k ∉ st.inFlight then some { st with holder := none }
      else none
  | .unsignedStart =>
      if st.holder = some k ∧ k ∉ st.inFlight then
        some { st with inFlight := k :: st.inFlight }
      else none
  | .unsignedEnd =>
      if st.holder = some k ∧ k ∈ st.inFlight then
        some { st with inFlight := st.inFlight.erase k }
      else none

/-- Run a trace of `(callId, action)` events from a state; `none` when some
step violates the discipline. -/
def runSigTrace (st : SigState) : List (ℕ × SigAction) → Option SigState
  | [] => some st
  | (k, a) :: rest =>
      match sigStep st k a with
      | none => none
      | some st₂ => runSigTrace st₂ rest

/-- The event pattern of one `transfer` call `k`: acquire, issue
`createUnsignedTx`, receive its response, release. -/
def transferEvents (k : ℕ) : List (ℕ × SigAction) :=
  [(k, .acquire), (k, .unsignedStart), (k, .unsignedEnd), (k, .release)]

/-- The initial signer state: mutex free, nothing in flight. -/
def sigInit : SigState := { holder := none, inFlight := [] }

/-! ## Wrapped-NCG minter (`src/bridge/src/wrapped-ncg-minter.ts`) -/

/-- The transaction configuration `mint` passes to `send`
(wrapped-ncg-minter.ts line 40): a gas price and, as the code stands, no
priority fee field at all. -/
structure MintTxConfig where
  gasPrice : ℤ
  priorityFee : Option ℚ
  deriving DecidableEq, Repr

/-- Observable behaviour of one `WrappedNCGMinter.mint` call. -/
structure MintBehavior where
  sentTx : Option MintTxConfig
  calledCallback : Bool
  calledErrorCallback : Bool
  unhandledRejection : Bool
  deriving DecidableEq, Repr

/-- Embedding of `WrappedNCGMinter.mint` (wrapped-ncg-minter.ts lines 31–44).
`gasFetch` is how `web3.eth.getGasPrice()` settles and `sendOutcome` how the
contract `send` settles.  The code chains `.then` on `getGasPrice` with no
`.catch`, so a rejected fetch runs neither callback and leaves an unhandled
rejection; the gas price sent is `gasPrice.mul(this._gasTipRatio).floor()`
and no priority fee is ever set. -/
def mint (gasFetch : Except Unit ℚ) (gasTipRatio : ℚ)
    (sendOutcome : Except Unit Unit) : MintBehavior :=
  match gasFetch with
  | .error _ =>
      { sentTx := none
        calledCallback := false
        calledErrorCallback := false
        unhandledRejection := true }
  | .ok gasPrice =>
      let cfg : MintTxConfig :=
        { gasPrice := ⌊gasPrice * gasTipRatio⌋, priorityFee := none }
      match sendOutcome with
      | .ok _ =>
          { sentTx := some cfg
            calledCallback := true
            calledErrorCallback := false
            unhandledRejection := false }
      | .error _ =>
          { sentTx := some cfg
            calledCallback := false
            calledErrorCallback := true
            unhandledRejection := false }

/-- Modelled from the spec: `GasPriceTipPolicy` (src/policies/gas-price.ts is
not among the sources; §4.7 gives `TipPolicy(r): p → floor(p × r)`). -/
def gasPriceTipPolicy (r p : ℚ) : ℚ := ⌊p * r⌋

/-- Modelled from the spec: `GasPriceLimitPolicy` (src/policies/gas-price.ts
is not among the sources; §4.7 gives `LimitPolicy(cap): p → min(p, cap)`). -/
def gasPriceLimitPolicy (cap p : ℚ) : ℚ := min p cap

/-- Modelled from the spec: the composite policy applied left to right, in
the order `[tip, limit]` in which index.ts lines 243–248 composes it. -/
def gasPricePolicy (r cap p : ℚ) : ℚ :=
  gasPriceLimitPolicy cap (gasPriceTipPolicy r p)

/-! ## Triggerable monitor (`monitors/triggerable-monitor.ts`)

`TriggerableMonitor.loop` is an async generator.  We model one run of it as a
function of the environment it observes: the resume outcome, and, per
iteration of the `while (true)` loop, what `getTipIndex` returns, the wall
clock, and whether (and where) an error is thrown inside the `try` body.  The
abstract hook `triggerredBlocks` is a parameter `f`; yielded envelopes are
recorded by their block index; alerts are recorded as the
`latestBlockNumber` payload passed to each integration's `error`. -/

/-- One iteration of the `while (true)` loop as the monitor experiences it:
either `getTipIndex` throws (`tipFail`), or it returns `tip` at wall-clock
`now` and the body runs, with `fault = some p` meaning an error is thrown
inside the `try` after exactly `p` of this iteration's yields (for example,
`getBlockHash`/`getEvents` of a later triggered index throwing), and
`fault = none` meaning the iteration completes. -/
inductive Step where
  | tipFail
  | run (tip now : ℕ) (fault : Option ℕ)
  deriving DecidableEq, Repr

/-- The mutable fields of `TriggerableMonitor` the loop uses:
`latestBlockNumber` and `updatedAt` (triggerable-monitor.ts lines 17–18). -/
structure MState where
  latest : ℕ
  updatedAt : ℕ
  deriving DecidableEq, Repr

/-- Observable outcome of one loop iteration: the block indices yielded, the
`latestBlockNumber` payloads handed to the integrations, and the state
afterwards. -/
structure StepOut where
  yields : List ℕ
  alerts : List ℕ
  state : MState
  deriving DecidableEq, Repr

/-- The liveness timeout, `5 * 60 * 1000` ms
(triggerable-monitor.ts line 67). -/
def TIMEOUT : ℕ := 5 * 60 * 1000

/-- Embedding of the body of the `while (true)` loop
(triggerable-monitor.ts lines 47–82).  With `latest + 1 <= tip` the triggered
indices `f (latest + 1)` are yielded one by one; a fault after `p` yields is
caught by the `catch`, leaving `latestBlockNumber` and `updatedAt` unchanged;
a completed iteration increments `latestBlockNumber` and refreshes
`updatedAt`.  Otherwise the stall check runs: each integration's `error` is
invoked exactly when `now - updatedAt > TIMEOUT`.  A `tipFail` iteration is
caught before anything happens. -/
def loopIter (f : ℕ → List ℕ) (nInteg : ℕ) (s : Step) (st : MState) : StepOut :=
  match s with
  | .tipFail => { yields := [], alerts := [], state := st }
  | .run tip now fault =>
      if st.latest + 1 ≤ tip then
        let idxs := f (st.latest + 1)
        match fault with
        | some p => { yields := idxs.take p, alerts := [], state := st }
        | none =>
            { yields := idxs
              alerts := []
              state := { latest := st.latest + 1, updatedAt := now } }
      else
        { yields := []
          alerts := if now - st.updatedAt > TIMEOUT then
              List.replicate nInteg st.latest
            else []
          state := st }

/-- Aggregate outcome of a run of `loop`: whether the generator threw (only
the resume phase, which sits outside the `try`/`catch`, can make it throw),
every yielded block index in order, per-iteration alert payloads, and the
final `latestBlockNumber`. -/
structure RunResult where
  crashed : Bool
  yields : List ℕ
  alerts : List (List ℕ)
  finalLatest : ℕ
  deriving DecidableEq, Repr

/-- Run the `while (true)` loop for a finite schedule of iterations. -/
def runSteps (f : ℕ → List ℕ) (nInteg : ℕ) : List Step → MState → RunResult
  | [], st => { crashed := false, yields := [], alerts := [], finalLatest := st.latest }
  | s :: rest, st =>
      let o := loopIter f nInteg s st
      let r := runSteps f nInteg rest o.state
      { crashed := false
        yields := o.yields ++ r.yields
        alerts := o.alerts :: r.alerts
        finalLatest := r.finalLatest }

/-- Embedding of `TriggerableMonitor.loop` (triggerable-monitor.ts lines
32–83).  `resume` is `this._latestTransactionLocation` together with how
`processRemains` settles: `none` models a null stored location (then
`latestBlockNumber` starts at `getTipIndex()`, given as `initTip`);
`some (.ok (nextBlockIndex, remained))` models a successful resume, which
yields the remained envelopes in order and then sets
`latestBlockNumber = nextBlockIndex` (line 40); `some (.error ())` models
`processRemains` throwing, which happens outside the `try`/`catch` and ends
the generator with no yield.  `t0` is the wall clock at line 45. -/
def runLoop (f : ℕ → List ℕ) (nInteg : ℕ)
    (resume : Option (Except Unit (ℕ × List ℕ))) (initTip t0 : ℕ)
    (steps : List Step) : RunResult :=
  match resume with
  | some (.error _) =>
      { crashed := true, yields := [], alerts := [], finalLatest := 0 }
  | some (.ok (nextBlockIndex, remained)) =>
      let r := runSteps f nInteg steps { latest := nextBlockIndex, updatedAt := t0 }
      { r with yields := remained ++ r.yields }
  | none =>
      runSteps f nInteg steps { latest := initTip, updatedAt := t0 }

/-- The default `triggerredBlocks` hook: the identity `[i]` (spec §4.1). -/
def singletonHook (i : ℕ) : List ℕ := [i]

/-- A batching `triggerredBlocks` hook: on every even block index trigger the
pair `[i - 1, i]`, otherwise nothing — the shape of a subclass that injects
virtual block indices. -/
def pairHook (i : ℕ) : List ℕ := if i % 2 = 0 then [i - 1, i] else []

/-- A step schedule contains no fault: every iteration's `try` body runs to
completion. -/
def faultFree : Step → Prop
  | .tipFail => True
  | .run _ _ fault => fault = none

instance : DecidablePred faultFree := fun s => by
  cases s with
  | tipFail => exact isTrue trivial
  | run tip now fault => exact (inferInstance : Decidable (fault = none))

/-- Strictly increasing list of naturals, executably. -/
def strictIncr : List ℕ → Bool
  | [] => true
  | [_] => true
  | a :: b :: rest => decide (a < b) && strictIncr (b :: rest)

/-- Mutual-exclusion invariant of the signer: at most one call is inside the
exclusive section, and only the holder has an in-flight
`createUnsignedTx` request. -/
def SigInv (st : SigState) : Prop :=
  st.inFlight = [] ∨ ∃ k, st.inFlight = [k] ∧ st.holder = some k

/-! ## Helper lemmas -/

lemma fracVal_nonneg (ds : List ℕ) : 0 ≤ fracVal ds := by
  induction ds with
  | nil => simp [fracVal]
  | cons d rest ih =>
      have : (0 : ℚ) ≤ (d : ℚ) + fracVal rest := by positivity
      simpa [fracVal] using by positivity

lemma fracVal_lt_one (ds : List ℕ) (h : ∀ d ∈ ds, d < 10) : fracVal ds < 1 := by
  induction ds with
  | nil => simp [fracVal]
  | cons d rest ih =>
      have hd : (d : ℚ) ≤ 9 := by
        have := h d (List.mem_cons_self d rest)
        exact_mod_cast Nat.lt_succ_iff.mp this
      have hr : fracVal rest < 1 := ih fun x hx => h x (List.mem_cons_of_mem d hx)
      have : (d : ℚ) + fracVal rest < 10 := by linarith
      simpa [fracVal] using by
        rw [div_lt_one (by norm_num : (0 : ℚ) < 10)]
        exact this

lemma stageBool_eq_true_iff (r : Except Unit Bool) :
    stageBool r = true ↔ r = .ok true := by
  cases r with
  | ok b => cases b <;> simp [stageBool]
  | error e => simp [stageBool]

lemma foldl_or_eq_any (l : List Bool) (b : Bool) :
    l.foldl (fun a c => a || c) b = (b || l.any id) := by
  induction l generalizing b with
  | nil => simp
  | cons x xs ih => simp [List.foldl_cons, ih, Bool.or_assoc]

lemma transferModel_result_cons (r : Except Unit Bool) (rest : List (Except Unit Bool))
    (txId : String) :
    (transferModel (r :: rest) txId).result
      = if (r :: rest).any (fun x => stageBool x) then .ok txId
        else .error .stageFailed := by
  have hmap : (rest.map stageBool).any id = rest.any (fun x => stageBool x) := by
    induction rest with
    | nil => rfl
    | cons y ys ih => simp [List.any_cons, ih]
  simp only [transferModel, List.map_cons, successAtLeastOne, foldl_or_eq_any,
    List.any_cons, hmap]
  by_cases hb : (stageBool r || rest.any fun x => stageBool x) = true
  · simp [hb]
  · simp only [Bool.not_eq_true] at hb
    simp [hb]

lemma runSteps_crashed (f : ℕ → List ℕ) (nInteg : ℕ) (steps : List Step)
    (st : MState) : (runSteps f nInteg steps st).crashed = false := by
  cases steps <;> rfl

lemma strictIncr_range' : ∀ (n s : ℕ), strictIncr (List.range' s n) = true
  | 0, _ => rfl
  | 1, _ => rfl
  | n + 2, s => by
      have ih := strictIncr_range' (n + 1) (s + 1)
      rw [List.range'_succ, List.range'_succ]
      rw [List.range'_succ] at ih
      simp only [strictIncr, Bool.and_eq_true, decide_eq_true_eq] at ih ⊢
      exact ⟨Nat.lt_succ_self s, ih⟩

lemma runSteps_singleton_fault_free (nInteg : ℕ) :
    ∀ (steps : List Step) (st : MState), (∀ s ∈ steps, faultFree s) →
      (runSteps singletonHook nInteg steps st).yields
          = List.range' (st.latest + 1)
              ((runSteps singletonHook nInteg steps st).finalLatest - st.latest)
        ∧ st.latest ≤ (runSteps singletonHook nInteg steps st).finalLatest
  | [], st, _ => by simp [runSteps]
  | s :: rest, st, h => by
      have hrest : ∀ x ∈ rest, faultFree x :=
        fun x hx => h x (List.mem_cons_of_mem s hx)
      cases s with
      | tipFail =>
          have ih := runSteps_singleton_fault_free nInteg rest st hrest
          simpa [runSteps, loopIter] using ih
      | run tip now fault =>
          have hf : fault = none := h _ (List.mem_cons_self _ _)
          subst hf
          by_cases hle : st.latest + 1 ≤ tip
          · have ih := runSteps_singleton_fault_free nInteg rest
              { latest := st.latest + 1, updatedAt := now } hrest
            obtain ⟨hy, hl⟩ := ih
            simp only [runSteps, loopIter, if_pos hle, singletonHook] at hy hl ⊢
            constructor
            · rw [hy]
              have harith : (runSteps singletonHook nInteg rest
                    { latest := st.latest + 1, updatedAt := now }).finalLatest - st.latest
                  = ((runSteps singletonHook nInteg rest
                    { latest := st.latest + 1, updatedAt := now }).finalLatest
                      - (st.latest + 1)) + 1 := by omega
              rw [harith, List.range'_succ]
              simp
            · omega
          · have ih := runSteps_singleton_fault_free nInteg rest st hrest
            simpa [runSteps, loopIter, if_neg hle] using ih

lemma sigStep_preserves_inv (st st' : SigState) (k : ℕ) (a : SigAction)
    (hinv : SigInv st) (hstep : sigStep st k a = some st') : SigInv st' := by
  cases a with
  | acquire =>
      by_cases hh : st.holder = none
      · simp only [sigStep, if_pos hh, Option.some.injEq] at hstep
        subst hstep
        rcases hinv with h0 | ⟨j, hj, hh'⟩
        · exact Or.inl h0
        · rw [hh] at hh'; exact absurd hh' (by simp)
      · simp [sigStep, hh] at hstep
  | release =>
      by_cases hc : st.holder = some k ∧ k ∉ st.inFlight
      · simp only [sigStep, if_pos hc, Option.some.injEq] at hstep
        subst hstep
        rcases hinv with h0 | ⟨j, hj, hh'⟩
        · exact Or.inl h0
        · rw [hc.1] at hh'
          have : j = k := by simpa using hh'.symm
          subst this
          exact absurd (hj ▸ List.mem_cons_self j []) hc.2
      · simp [sigStep, hc] at hstep
  | unsignedStart =>
      by_cases hc : st.holder = some k ∧ k ∉ st.inFlight
      · simp only [sigStep, if_pos hc, Option.some.injEq] at hstep
        subst hstep
        rcases hinv with h0 | ⟨j, hj, hh'⟩
        · exact Or.inr ⟨k, by simp [h0], hc.1⟩
        · rw [hc.1] at hh'
          have : j = k := by simpa using hh'.symm
          subst this
          exact absurd (hj ▸ List.mem_cons_self j []) hc.2
      · simp [sigStep, hc] at hstep
  | unsignedEnd =>
      by_cases hc : st.holder = some k ∧ k ∈ st.inFlight
      · simp only [sigStep, if_pos hc, Option.some.injEq] at hstep
        subst hstep
        rcases hinv with h0 | ⟨j, hj, hh'⟩
        · rw [h0] at hc; exact absurd hc.2 (by simp)
        · have : k = j := by simpa [hj] using hc.2
          subst this
          exact Or.inl (by simp [hj])
      · simp [sigStep, hc] at hstep

lemma runSigTrace_preserves_inv :
    ∀ (tr : List (ℕ × SigAction)) (st st' : SigState),
      SigInv st → runSigTrace st tr = some st' → SigInv st'
  | [], st, st', h, he => by
      simp only [runSigTrace, Option.some.injEq] at he
      exact he ▸ h
  | (k, a) :: rest, st, st', h, he => by
      simp only [runSigTrace] at he
      cases hs : sigStep st k a with
      | none => rw [hs] at he; exact absurd he (by simp)
      | some st₂ =>
          rw [hs] at he
          exact runSigTrace_preserves_inv rest st₂ st'
            (sigStep_preserves_inv st st₂ k a h hs) he

/-! ## Claim theorems -/

/-- C1 (counterexample): the yield sequence of `TriggerableMonitor.loop` is
NOT duplicate-free when an error is thrown between a yield and the increment
of `latestBlockNumber`.  With a batching `triggerredBlocks` hook, a clean
tip at 2 and a fault after the first yield of the first iteration, the run
yields block 1, retries the same `latestBlockNumber`, and yields block 1
again: the yields are `[1, 1, 2]`, and two successive yields are equal
rather than strictly increasing. -/
theorem loop_duplicate_yield_counterexample :
    (runLoop pairHook 0 none 1 0 [.run 2 0 (some 1), .run 2 0 none]).yields
        = [1, 1, 2]
      ∧ strictIncr
          (runLoop pairHook 0 none 1 0
            [.run 2 0 (some 1), .run 2 0 none]).yields = false := by
  decide

/-- C1 (amended): in runs of `TriggerableMonitor.loop` in which no error is
thrown inside the loop body (and with the default identity
`triggerredBlocks` hook and a fresh start), the yielded block indices are
the consecutive range starting right after the initial tip: no block is
skipped, none is yielded twice, and successive yields are strictly
increasing. -/
theorem loop_yields_consecutive_when_fault_free (nInteg initTip t0 : ℕ)
    (steps : List Step) (h : ∀ s ∈ steps, faultFree s) :
    (runLoop singletonHook nInteg none initTip t0 steps).yields
        = List.range' (initTip + 1)
            ((runLoop singletonHook nInteg none initTip t0 steps).finalLatest
              - initTip)
      ∧ strictIncr
          (runLoop singletonHook nInteg none initTip t0 steps).yields = true := by
  have hmain := runSteps_singleton_fault_free nInteg steps
    { latest := initTip, updatedAt := t0 } h
  refine ⟨hmain.1, ?_⟩
  have : (runLoop singletonHook nInteg none initTip t0 steps).yields
      = List.range' (initTip + 1)
          ((runLoop singletonHook nInteg none initTip t0 steps).finalLatest
            - initTip) := hmain.1
  rw [this]
  exact strictIncr_range' _ _

/-- C1 (witness): a concrete fault-free run from tip 3 over two iterations
yields exactly blocks 4 and 5. -/
theorem loop_yields_consecutive_check :
    (runLoop singletonHook 0 none 3 0 [.run 5 0 none, .run 5 0 none]).yields
        = List.range' (3 + 1)
            ((runLoop singletonHook 0 none 3 0
              [.run 5 0 none, .run 5 0 none]).finalLatest - 3)
      ∧ strictIncr
          (runLoop singletonHook 0 none 3 0
            [.run 5 0 none, .run 5 0 none]).yields = true :=
  loop_yields_consecutive_when_fault_free 0 3 0 _ (by decide)

/-- C2 (confirmed): `NCGKMSTransfer.transfer` stages the signed transaction
on every configured client, returns the txId exactly when at least one
client's `stageTx` settles with `true` (a rejected promise being caught and
counted as `false`), and otherwise throws. -/
theorem transfer_succeeds_iff_some_stage_accepts
    (rs : List (Except Unit Bool)) (txId : String) (h : rs ≠ []) :
    ((transferModel rs txId).result = .ok txId ↔ Except.ok true ∈ rs)
      ∧ ((transferModel rs txId).result = .ok txId
          ∨ (transferModel rs txId).result = .error .stageFailed)
      ∧ ∀ j, j < rs.length → RpcCall.stageTx j ∈ (transferModel rs txId).calls := by
  cases rs with
  | nil => exact absurd rfl h
  | cons r rest =>
      have hres := transferModel_result_cons r rest txId
      have hmem : (r :: rest).any (fun x => stageBool x) = true
          ↔ Except.ok true ∈ r :: rest := by
        rw [List.any_eq_true]
        constructor
        · rintro ⟨x, hx, hsx⟩
          exact (stageBool_eq_true_iff x).mp hsx ▸ hx
        · intro hm
          exact ⟨_, hm, (stageBool_eq_true_iff _).mpr rfl⟩
      refine ⟨?_, ?_, ?_⟩
      · rw [hres]
        by_cases hb : (r :: rest).any (fun x => stageBool x) = true
        · simp [hb, hmem.mp hb]
        · have hb' : (r :: rest).any (fun x => stageBool x) = false := by
            simpa using hb
          simp only [hb', if_false]
          constructor
          · intro hcontra; exact absurd hcontra (by simp)
          · intro hm; exact absurd (hmem.mpr hm) (by simp [hb'])
      · rw [hres]
        by_cases hb : (r :: rest).any (fun x => stageBool x) = true
        · exact Or.inl (by simp [hb])
        · have hb' : (r :: rest).any (fun x => stageBool x) = false := by
            simpa using hb
          exact Or.inr (by simp [hb'])
      · intro j hj
        simp only [transferModel, List.mem_cons]
        refine Or.inr (Or.inr ?_)
        simp only [List.mem_map, List.mem_range]
        exact ⟨j, by simpa using hj, rfl⟩

/-- C2 (witness): with three clients of which one rejects, one refuses and
one accepts, the transfer returns the txId, and all three were staged. -/
theorem transfer_stage_partial_failure_check :
    ((transferModel [.error (), .ok false, .ok true] "ab").result = .ok "ab"
        ↔ Except.ok true ∈ ([.error (), .ok false, .ok true] :
            List (Except Unit Bool)))
      ∧ ((transferModel [.error (), .ok false, .ok true] "ab").result = .ok "ab"
          ∨ (transferModel [.error (), .ok false, .ok true] "ab").result
              = .error .stageFailed)
      ∧ ∀ j, j < ([.error (), .ok false, .ok true] :
            List (Except Unit Bool)).length →
          RpcCall.stageTx j
            ∈ (transferModel [.error (), .ok false, .ok true] "ab").calls :=
  transfer_succeeds_iff_some_stage_accepts _ "ab" (by simp)

/-- C3 (counterexample): after resuming from a stored location with
`processRemains` returning `nextBlockIndex = 10`, `TriggerableMonitor.loop`
sets `latestBlockNumber` to 10 (not `10 − 1 = 9`), so the first block the
main loop fetches is 11, not 10 as the claim states. -/
theorem loop_resume_skips_next_block_counterexample :
    (runLoop singletonHook 0 (some (.ok (10, []))) 0 0 []).finalLatest = 10
      ∧ (10 : ℕ) ≠ 10 - 1
      ∧ (runLoop singletonHook 0 (some (.ok (10, []))) 0 0
          [.run 20 0 none]).yields = [11]
      ∧ ([11] : List ℕ) ≠ [10] := by
  decide

/-- C3 (amended): when `TriggerableMonitor.loop` starts with a non-null
stored location, it yields each envelope returned by `processRemains` in
order and then sets `latestBlockNumber` to `nextBlockIndex` itself, so the
first block fetched by the main loop is `nextBlockIndex + 1`. -/
theorem loop_resume_yields_remained_then_next_block (f : ℕ → List ℕ)
    (nInteg nb initTip t0 tip now : ℕ) (rem : List ℕ) (h : nb + 1 ≤ tip) :
    (runLoop f nInteg (some (.ok (nb, rem))) initTip t0 []).finalLatest = nb
      ∧ (runLoop f nInteg (some (.ok (nb, rem))) initTip t0
          [.run tip now none]).yields = rem ++ f (nb + 1) := by
  constructor
  · rfl
  · simp [runLoop, runSteps, loopIter, if_pos h]

/-- C3 (witness): resuming with `nextBlockIndex = 10` and one remained
envelope for block 7, against a tip of 20, yields the remained envelope and
then block 11. -/
theorem loop_resume_check :
    (runLoop singletonHook 0 (some (.ok (10, [7]))) 0 0 []).finalLatest = 10
      ∧ (runLoop singletonHook 0 (some (.ok (10, [7]))) 0 0
          [.run 20 0 none]).yields = [7] ++ singletonHook (10 + 1) :=
  loop_resume_yields_remained_then_next_block singletonHook 0 10 0 0 20 0 [7]
    (by decide)

/-- C4 (counterexample): an error thrown by `processRemains` during the
resume phase of `TriggerableMonitor.loop` is NOT caught — the resume phase
sits outside the `try`/`catch` — so the generator throws and the loop
terminates on its own without yielding anything, contrary to the claim that
every error inside `loop` is caught and the loop continues. -/
theorem loop_resume_fault_crashes_counterexample :
    (runLoop singletonHook 1 (some (.error ())) 0 0 [.run 5 0 none]).crashed
        = true
      ∧ (runLoop singletonHook 1 (some (.error ())) 0 0
          [.run 5 0 none]).yields = [] := by
  decide

/-- C4 (amended): every error raised inside the `while (true)` body of
`TriggerableMonitor.loop` — `getTipIndex`, `getBlockHash`, `getEvents`, at
any point of any iteration — is caught by the `catch`, and the loop
continues; only a resume-phase `processRemains` error ends the generator. -/
theorem loop_continues_after_caught_errors (f : ℕ → List ℕ) (nInteg : ℕ)
    (resume : Option (Except Unit (ℕ × List ℕ))) (initTip t0 : ℕ)
    (steps : List Step) (h : resume ≠ some (.error ())) :
    (runLoop f nInteg resume initTip t0 steps).crashed = false := by
  cases resume with
  | none => exact runSteps_crashed f nInteg steps _
  | some r =>
      cases r with
      | error e => cases e; exact absurd rfl h
      | ok v =>
          obtain ⟨nb, rem⟩ := v
          simpa [runLoop] using runSteps_crashed f nInteg steps
            { latest := nb, updatedAt := t0 }

/-- C4 (witness): a fresh-start run whose iterations all fault never makes
the generator throw. -/
theorem loop_continues_check :
    (runLoop singletonHook 0 none 0 0
        [.tipFail, .run 5 0 (some 0), .tipFail]).crashed = false :=
  loop_continues_after_caught_errors singletonHook 0 none 0 0
    [.tipFail, .run 5 0 (some 0), .tipFail] (by simp)

/-- C5 (code bug): the spec's composite policy value at base price 10, tip
ratio 2 and cap 5 is `min(floor(10·2), 5) = 5`, but the `mint` in
src/bridge/src/wrapped-ncg-minter.ts sends gas price `floor(10·2) = 20` —
only the tip is applied, the cap is never consulted — and sets no
`priorityFee` at all.  (index.ts lines 243–249 builds the composite
`[tip, limit]` policy and a priority fee and passes them to the minter's
constructor, which this version of the class does not even accept.) -/
theorem mint_ignores_limit_policy_and_priority_fee :
    gasPricePolicy 2 5 10 = 5
      ∧ (mint (.ok 10) 2 (.ok ())).sentTx
          = some { gasPrice := 20, priorityFee := none }
      ∧ ((20 : ℤ) : ℚ) ≠ gasPricePolicy 2 5 10 := by
  have hfloor : ⌊(10 : ℚ) * 2⌋ = 20 := by norm_num
  refine ⟨?_, ?_, ?_⟩
  · simp only [gasPricePolicy, gasPriceTipPolicy, gasPriceLimitPolicy, hfloor]
    norm_num
  · simp [mint, hfloor]
  · simp only [gasPricePolicy, gasPriceTipPolicy, gasPriceLimitPolicy, hfloor]
    norm_num

/-- C6 (confirmed): the integer embedded in the `transfer_asset3` plain
value built by `NCGKMSTransfer.transfer` is `floor(amount × 100)`: for an
amount with integer part `units` and fraction digits `d0, d1, rest…`, it
equals `100·units + 10·d0 + d1` — every digit beyond the second decimal
place is dropped, i.e. the amount is rounded down to two decimal places. -/
theorem transfer_amount_floor_two_decimals (units d0 d1 : ℕ) (rest : List ℕ)
    (h0 : d0 < 10) (h1 : d1 < 10) (hrest : ∀ d ∈ rest, d < 10) :
    (buildPlainValue units (d0 :: d1 :: rest)).amountInt
      = 100 * (units : ℤ) + 10 * (d0 : ℤ) + (d1 : ℤ) := by
  have hnn := fracVal_nonneg rest
  have hlt := fracVal_lt_one rest hrest
  have hval : decimalValue units (d0 :: d1 :: rest) * 100
      = (((100 * (units : ℤ) + 10 * (d0 : ℤ) + (d1 : ℤ)) : ℤ) : ℚ)
          + fracVal rest := by
    simp only [decimalValue, fracVal]
    push_cast
    ring
  simp only [buildPlainValue, ncgAmount]
  rw [hval, Int.floor_int_add, Int.floor_eq_zero_iff.mpr ⟨hnn, hlt⟩, add_zero]

/-- C6 (witness): the amount string `"50.011"` — integer part 50, fraction
digits 0, 1, 1 — yields the integer 5001, as the source's own comment
expects. -/
theorem transfer_amount_check :
    (buildPlainValue 50 [0, 1, 1]).amountInt = 5001 := by
  rw [transfer_amount_floor_two_decimals 50 0 1 [1] (by decide) (by decide)
    (by decide)]
  norm_num

/-- C7 (confirmed): in every valid interleaving of `transfer` calls under
the mutex discipline of `runExclusive` — starting from the free mutex — the
number of in-flight `createUnsignedTx` requests never exceeds 1: this holds
at every reachable state, hence at every prefix of every trace. -/
theorem unsigned_requests_serialized (tr : List (ℕ × SigAction))
    (st : SigState) (h : runSigTrace sigInit tr = some st) :
    st.inFlight.length ≤ 1 := by
  have hinv := runSigTrace_preserves_inv tr sigInit st (Or.inl rfl) h
  rcases hinv with h0 | ⟨k, hk, _⟩
  · simp [h0]
  · simp [hk]

/-- C7 (witness): two serialized transfer calls form a valid trace ending
with the mutex free and nothing in flight. -/
theorem unsigned_requests_serialized_check :
    runSigTrace sigInit (transferEvents 0 ++ transferEvents 1)
        = some { holder := none, inFlight := [] }
      ∧ (SigState.mk none []).inFlight.length ≤ 1 :=
  ⟨by decide,
    unsigned_requests_serialized (transferEvents 0 ++ transferEvents 1)
      (SigState.mk none []) (by decide)⟩

/-- C8 (counterexample): a monitor that makes no progress for more than 5
minutes while the chain tip IS advancing fires no alert: with tip 100 far
ahead of `latestBlockNumber = 4` and every iteration faulting before any
yield, the stalled iteration at wall clock 400000 ms (elapsed 400000 >
300000) invokes zero integrations — the stall check only runs in the
caught-up branch — contradicting the claim that the alert fires whenever
progress stalls, including when the tip advances. -/
theorem loop_no_alert_while_tip_ahead_counterexample :
    (runLoop singletonHook 1 none 4 0 [.run 100 400000 (some 0)]).yields = []
      ∧ (runLoop singletonHook 1 none 4 0 [.run 100 400000 (some 0)]).alerts
          = [[]]
      ∧ 400000 - 0 > TIMEOUT
      ∧ 4 + 1 ≤ 100
      ∧ ([[]] : List (List ℕ)) ≠ [[4]] := by
  decide

/-- C8 (amended): the stall alert fires only in the caught-up branch: when
`latestBlockNumber + 1 > tip` and more than 5 minutes have passed since
`updatedAt`, the iteration yields nothing, invokes the `error` method of
every configured integration with the current `latestBlockNumber`, and
leaves the state unchanged — so the alert fires again on each subsequent
poll while the stall persists. -/
theorem loop_alerts_each_poll_when_stalled_at_tip (f : ℕ → List ℕ)
    (nInteg : ℕ) (st : MState) (tip now : ℕ) (fault : Option ℕ)
    (h1 : tip < st.latest + 1) (h2 : TIMEOUT < now - st.updatedAt) :
    loopIter f nInteg (.run tip now fault) st
      = { yields := [], alerts := List.replicate nInteg st.latest
          state := st } := by
  simp only [loopIter]
  rw [if_neg (by omega), if_pos h2]

/-- C8 (witness): a monitor caught up at block 4, stalled since time 0 and
polled at 400000 ms with two configured integrations, pages both with
`latestBlockNumber = 4` and keeps its state. -/
theorem loop_alerts_check :
    loopIter singletonHook 2 (.run 4 400000 none)
        { latest := 4, updatedAt := 0 }
      = { yields := [], alerts := List.replicate 2 4
          state := { latest := 4, updatedAt := 0 } } :=
  loop_alerts_each_poll_when_stalled_at_tip singletonHook 2
    { latest := 4, updatedAt := 0 } 4 400000 none (by decide) (by decide)

/-- C9 (confirmed): the only `createUnsignedTx` request `transfer` makes
targets client index 0 — the getter `headlessGraphQLClient` returns
`this._headlessGraphQLCLients[0]` — while every configured client, the
primary included, receives a `stageTx` call. -/
theorem transfer_unsigned_only_from_primary
    (rs : List (Except Unit Bool)) (txId : String) :
    (∀ i, RpcCall.createUnsignedTx i ∈ (transferModel rs txId).calls → i = 0)
      ∧ ∀ j, j < rs.length →
          RpcCall.stageTx j ∈ (transferModel rs txId).calls := by
  constructor
  · intro i hi
    simp only [transferModel, List.mem_cons, List.mem_map,
      List.mem_range] at hi
    rcases hi with h0 | h0 | ⟨a, _, h0⟩
    · exact (RpcCall.createUnsignedTx.injEq i 0).mp h0
    · exact absurd h0 (by simp)
    · exact absurd h0 (by simp)
  · intro j hj
    simp only [transferModel, List.mem_cons, List.mem_map, List.mem_range]
    exact Or.inr (Or.inr ⟨j, hj, rfl⟩)

/-- C9 (witness): with three configured clients, the unsigned transaction is
requested from index 0 and client 2 still takes part in the staging
fan-out. -/
theorem transfer_unsigned_only_from_primary_check :
    (0 : ℕ) = 0
      ∧ RpcCall.stageTx 2
          ∈ (transferModel [.ok true, .ok true, .ok true] "cd").calls :=
  ⟨(transfer_unsigned_only_from_primary [.ok true, .ok true, .ok true]
      "cd").1 0 (by decide),
    (transfer_unsigned_only_from_primary [.ok true, .ok true, .ok true]
      "cd").2 2 (by decide)⟩

/-- C10 (confirmed): when `getGasPrice` rejects, `mint` runs neither the
success callback nor `errorCallback`, sends nothing, and leaves the
rejection unhandled (the `.then` chain has no `.catch`); `errorCallback`
runs exactly when the gas fetch succeeded and the contract `send` itself
failed. -/
theorem mint_gas_fetch_rejection_unhandled (r : ℚ) (s : Except Unit Unit) :
    (mint (.error ()) r s).calledCallback = false
      ∧ (mint (.error ()) r s).calledErrorCallback = false
      ∧ (mint (.error ()) r s).sentTx = none
      ∧ (mint (.error ()) r s).unhandledRejection = true
      ∧ ∀ g : Except Unit ℚ,
          ((mint g r s).calledErrorCallback = true
            ↔ (∃ p, g = .ok p) ∧ s = .error ()) := by
  refine ⟨rfl, rfl, rfl, rfl, ?_⟩
  intro g
  cases g with
  | error e => cases e; simp [mint]
  | ok p =>
      cases s with
      | error e => cases e; simp [mint]
      | ok u => cases u; simp [mint]

end EthBridge
